import Mathlib

/-!
# Flatter: a shallow embedding of the object-graph persistence core

This file embeds the persistence engine of `src/Flatter.ts` (an ORM mapping an
in-memory graph of objects, possibly cyclic, onto SQLite rows keyed by UUID)
and settles the frozen claims about it.

Modelling conventions:
* JavaScript objects reachable from entity fields are modelled by the mutual
  inductive family `Val`/`Entries`/`Elems` (JSON-like trees).  An ISO-8601
  date string (the `JSON.stringify` wire form of a `Date`) is represented by
  the tagged constructor `viso ms` so that date arithmetic stays exact; a
  live JS `Date` is `vdate ms`; an unparseable `new Date(...)` result
  ("Invalid Date") is `vinvalidDate`.
* Persistent entities are referenced by their uuid everywhere (`FVal.fref`),
  with an environment `SEnv` resolving uuids to entities — mirroring that a
  JS object holds pointers to other entity objects.
* The database stores structured values directly (`Row := Entries`); the
  `JSON.stringify`/`JSON.parse` pair on the aggregate column is the identity
  on this representation, so it is not modelled separately — except for its
  observable effects: the replacer's reference tokens/cascades and the cycle
  detection of `JSON.stringify` (error `circularJson`), and the reviver's
  bottom-up token resolution in `resolveVal`.
* Unbounded JS recursion is modelled with fuel; fuel exhaustion is the error
  `stackOverflow`, which propagates exactly like the JS `RangeError`
  ("Maximum call stack size exceeded") a genuinely divergent recursion
  raises.
* The save-side `transact` wraps a SQLite SAVEPOINT: on failure the database
  (the `store` component) is rolled back to the checkpoint, while JS-side
  mutations of the operation cache are *not* (they are plain object writes).
-/

namespace Flatter

mutual
/-- JSON-like runtime values (see module conventions above). -/
inductive Val : Type where
  | vnull : Val
  | vstr (s : String) : Val
  | vnum (n : Int) : Val
  | vdate (ms : Int) : Val
  | viso (ms : Int) : Val
  | vinvalidDate : Val
  | vinst (addr : Nat) : Val
  | vobj (kvs : Entries) : Val
  | varr (xs : Elems) : Val

/-- The key/value members of a JSON object, in property order. -/
inductive Entries : Type where
  | nil : Entries
  | cons (k : String) (v : Val) (rest : Entries) : Entries

/-- The elements of a JSON array. -/
inductive Elems : Type where
  | nil : Elems
  | cons (v : Val) (rest : Elems) : Elems
end

/-- Property lookup on a JSON object (`theValue.class`, `theValue.uuid`). -/
def Entries.find : Entries → String → Option Val
  | .nil, _ => none
  | .cons k v rest, key => if k == key then some v else rest.find key

/-- Concatenation of object members (used to state computed rows). -/
def Entries.append : Entries → Entries → Entries
  | .nil, e => e
  | .cons k v rest, e => .cons k v (rest.append e)

/-- A field value of a live entity: scalars, a `Date`, plain JSON data, or a
reference to another persistent entity (a pointer in JS, a uuid here). -/
inductive FVal : Type where
  | fstr (s : String) : FVal
  | fnum (n : Int) : FVal
  | fdate (ms : Int) : FVal
  | fref (u : String) : FVal
  | fjson (v : Val) : FVal

/-- A live persistent entity: its class (constructor) name, its `uuid`
property, and its remaining own enumerable properties in order. -/
structure Ent where
  cls : String
  uuid : String
  fields : List (String × FVal)

/-- The world of live entities, looked up by uuid (JS pointer dereference). -/
abbrev SEnv := List Ent

def envFind (env : SEnv) (u : String) : Option Ent :=
  env.find? (fun e => e.uuid == u)

/-- The declared storage type of a column (`tableInfo[...].type`).  A foreign
key column's declared type is the referenced class name, for which no entry
exists in `DBTypeConversions`. -/
inductive ColT : Type where
  | uuidT : ColT
  | textT : ColT
  | datetimeT : ColT
  | objectT : ColT
  | fkref (cls : String) : ColT
deriving DecidableEq

/-- The Type Cache together with the cached `tableInfo` column schema of each
registered class (column name and declared type, in column order). -/
abbrev TC := List (String × List (String × ColT))

/-- A save-cache entry: `{ uuid: this.uuid }` placeholder vs. the
materialized entity itself (`cache[theUUID] = this`). -/
inductive CEnt : Type where
  | ph : CEnt
  | mat : CEnt
deriving DecidableEq

/-- Replace-or-append update of a string-keyed association list
(assignment to a JS object property). -/
def setA {α : Type} : List (String × α) → String → α → List (String × α)
  | [], u, a => [(u, a)]
  | (k, b) :: rest, u, a =>
    if k == u then (u, a) :: rest else (k, b) :: setA rest u a

/-- The save-scoped operation cache: `cache.toplevel` holds the top-level
entity (represented by its uuid; the source compares uuids), and the
remaining keys map uuids to placeholder/materialized entries. -/
structure SCache where
  toplevel : String
  m : List (String × CEnt)

def cacheSet (c : SCache) (u : String) (e : CEnt) : SCache :=
  { c with m := setA c.m u e }

/-- A database row: column name to stored cell value, in column order. -/
abbrev Row := Entries

/-- All tables of the database: uuid to (class/table, row).  Row lookup in a
class's table checks the class component. -/
abbrev Store := List (String × String × Row)

def storeFind (s : Store) (u : String) : Option (String × Row) :=
  (s.find? (fun e => e.1 == u)).map (·.2)

/-- `INSERT OR REPLACE` keyed by uuid. -/
def storePut : Store → String → String → Row → Store
  | [], u, c, r => [(u, (c, r))]
  | (k, p) :: rest, u, c, r =>
    if k == u then (u, (c, r)) :: rest else (k, p) :: storePut rest u c r

/-- The mutable state threaded through a save cascade. -/
structure St where
  cache : SCache
  store : Store

/-- Errors raised on the save path. -/
inductive SErr : Type where
  | stackOverflow : SErr    -- RangeError: maximum call stack size exceeded
  | circularJson : SErr     -- TypeError: converting circular structure to JSON
  | typeErr : SErr          -- TypeError (e.g. missing DBTypeConversions entry)
  | missingEntity : SErr
  | schemaMissing : SErr
deriving DecidableEq

/--
`transact(aTransaction, name)` (source lines 841-857): begin a SAVEPOINT, run
the unit of work, RELEASE on success; on any error ROLLBACK TO the savepoint
and re-throw the same error.  The rollback restores the database (`store`);
JS-side cache mutations performed by the unit of work are not undone.
-/
def transact (body : St → Except (SErr × St) St) (st : St) : Except (SErr × St) St :=
  match body st with
  | .ok st' => .ok st'
  | .error (e, stE) => .error (e, { stE with store := st.store })

/-- Julian-day offset of the Unix epoch, in milliseconds
(2440587.5 days × 86400000 ms/day). -/
def julianMsOffset : Int := 210866760000000

/-- The wire string produced by `julian(date)`: the astronomical Julian day
of the date.  The npm package formats the day as a decimal string; we keep
the exact value by scaling to milliseconds.  What matters downstream is that
this string is not ISO-8601 and is not parseable by `new Date(string)`. -/
def julianStr (ms : Int) : String := toString (ms + julianMsOffset)

/-- `DATETIME.toDBValue` (source line 1077): `julian(e)`. -/
def DATETIME_toDBValue : FVal → Val
  | .fdate ms => .vstr (julianStr ms)
  | _ => .vnull

/-- `new Date(e)`: an ISO-8601 string parses to the same instant; a number is
taken as milliseconds since the epoch; a `Date` is copied; anything else
(including a Julian-day decimal string) yields an Invalid Date. -/
def jsNewDate : Val → Val
  | .viso ms => .vdate ms
  | .vnum n => .vdate n
  | .vdate ms => .vdate ms
  | _ => .vinvalidDate

/-- `DATETIME.toJSValue` (source line 1079): `new Date(e)`. -/
def DATETIME_toJSValue : Val → Val := jsNewDate

/-- The Reference Token emitted for an embedded entity:
`{ class: <constructor name>, uuid: <identifier> }` (source lines 1099-1102). -/
def token (cls u : String) : Val :=
  .vobj (.cons "class" (.vstr cls) (.cons "uuid" (.vstr u) .nil))

/-- Pass-through of a field value when the column's storage type has no
`toDBValue` (UUID, TEXT): the raw JS value is handed to the driver. -/
def fvalRaw : FVal → Val
  | .fstr s => .vstr s
  | .fnum n => .vnum n
  | .fdate ms => .vdate ms
  | .fref _ => .vnull
  | .fjson v => v

mutual
/-- The effect of `JSON.stringify` on plain data: for every node that has a
`toJSON` method — which among the modelled values is exactly a live `Date` —
`SerializeJSONProperty` replaces the node by `toJSON()` *before* the
replacer sees it, so a `Date` anywhere inside plain data is stored as its
ISO-8601 string (`viso`); everything else is emitted structurally. -/
def jsonStringifyVal : Val → Val
  | .vdate ms => .viso ms
  | .vobj kvs => .vobj (jsonStringifyEntries kvs)
  | .varr xs => .varr (jsonStringifyElems xs)
  | v => v

def jsonStringifyEntries : Entries → Entries
  | .nil => .nil
  | .cons k v rest => .cons k (jsonStringifyVal v) (jsonStringifyEntries rest)

def jsonStringifyElems : Elems → Elems
  | .nil => .nil
  | .cons v rest => .cons (jsonStringifyVal v) (jsonStringifyElems rest)
end

/--
The `JSON.stringify` replacer of `OBJECT.toDBValue` (source lines 1095-1108)
applied to one field value.  `self` is `(e as Storable).uuid` of the value
being serialized: `some u` when serializing the entity itself (the `flatter`
column), `none` when serializing a plain object column (whose `uuid` is
undefined and so never equals an entity's uuid).

For an embedded entity: a reference back to `self` is returned as-is, which
makes `JSON.stringify` meet the same object again on its stack and throw
(`circularJson`); any other entity is saved through the shared cache
(`value.save(cache)`) and replaced by a Reference Token.  A `Date` (at the
top level or anywhere inside plain data) is serialized through
`Date.prototype.toJSON` to its ISO string — `jsonStringifyVal`.
-/
def serializeFVal (saveRec : String → St → Except (SErr × St) (Bool × St))
    (env : SEnv) (self : Option String) (fv : FVal) (st : St) :
    Except (SErr × St) (Val × St) :=
  match fv with
  | .fstr s => .ok (.vstr s, st)
  | .fnum n => .ok (.vnum n, st)
  | .fdate ms => .ok (.viso ms, st)
  | .fjson v => .ok (jsonStringifyVal v, st)
  | .fref u =>
    if self = some u then .error (.circularJson, st)
    else
      match envFind env u with
      | none => .error (.missingEntity, st)
      | some ent =>
        match saveRec u st with
        | .error e => .error e
        | .ok (_, st') => .ok (token ent.cls u, st')

/-- Serialize the own enumerable fields of an entity in property order,
threading the save state through the cascaded saves. -/
def serFields (saveRec : String → St → Except (SErr × St) (Bool × St))
    (env : SEnv) (self : String) :
    List (String × FVal) → St → Except (SErr × St) (Entries × St)
  | [], st => .ok (.nil, st)
  | (k, fv) :: rest, st =>
    match serializeFVal saveRec env (some self) fv st with
    | .error e => .error e
    | .ok (v, st') =>
      match serFields saveRec env self rest st' with
      | .error e => .error e
      | .ok (es, st'') => .ok (.cons k v es, st'')

/-- `OBJECT.toDBValue` on the `flatter` getter: `JSON.stringify(this,
replacer)` — the snapshot of the entity's own properties (`uuid` first,
assigned in the base constructor, then the subclass fields). -/
def serializeEntity (saveRec : String → St → Except (SErr × St) (Bool × St))
    (env : SEnv) (ent : Ent) (st : St) : Except (SErr × St) (Val × St) :=
  match serFields saveRec env ent.uuid ent.fields st with
  | .error e => .error e
  | .ok (es, st') => .ok (.vobj (.cons "uuid" (.vstr ent.uuid) es), st')

/-- `Reflect.get(this, row.name)`: the `uuid` own property, the `flatter`
getter (handled by the caller), or a declared field. -/
def propOf (ent : Ent) (name : String) : Option FVal :=
  if name == "uuid" then some (.fstr ent.uuid)
  else ent.fields.lookup name

/--
One column of `dbValues` (source lines 721-737), in the source's branch
order: a foreign-key column holding an entity is substituted by its uuid;
otherwise the column's conversion is looked up by declared type — for an FK
column this lookup is `undefined` and reading `.toDBValue` throws
(`typeErr`); UUID/TEXT pass through; DATETIME applies `julian`; OBJECT runs
the graph codec (the `flatter` column serializes the entity itself).
-/
def dbCell (saveRec : String → St → Except (SErr × St) (Bool × St))
    (env : SEnv) (ent : Ent) (name : String) (ty : ColT) (st : St) :
    Except (SErr × St) (Val × St) :=
  match ty, propOf ent name with
  | .fkref _, some (.fref v) => .ok (.vstr v, st)
  | .fkref _, _ => .error (.typeErr, st)
  | .uuidT, v => .ok ((v.map fvalRaw).getD .vnull, st)
  | .textT, v => .ok ((v.map fvalRaw).getD .vnull, st)
  | .datetimeT, v => .ok ((v.map DATETIME_toDBValue).getD .vnull, st)
  | .objectT, v =>
    if name == "flatter" then serializeEntity saveRec env ent st
    else
      match v with
      | some fv => serializeFVal saveRec env none fv st
      | none => .ok (.vnull, st)

/-- `dbValues(cache)`: map the class's columns (in `tableInfo` order) to
their stored cell values, cascading saves through aggregate columns. -/
def dbValues (saveRec : String → St → Except (SErr × St) (Bool × St))
    (env : SEnv) (ent : Ent) :
    List (String × ColT) → St → Except (SErr × St) (Row × St)
  | [], st => .ok (.nil, st)
  | (name, ty) :: rest, st =>
    match dbCell saveRec env ent name ty st with
    | .error e => .error e
    | .ok (cell, st') =>
      match dbValues saveRec env ent rest st' with
      | .error e => .error e
      | .ok (row, st'') => .ok (.cons name cell row, st'')

/-- The write phase shared by the cache-present and cache-absent paths of
`save`: `transact` around `dbValues` + `INSERT OR REPLACE` + the
materialized cache entry (source line 803), then the post-transaction
placeholder overwrite (source line 806).  `saveRec` is the recursive entry
for cascaded saves of embedded entities. -/
def saveWrite (saveRec : String → St → Except (SErr × St) (Bool × St))
    (env : SEnv) (ent : Ent)
    (schema : List (String × ColT)) (st : St) : Except (SErr × St) (Bool × St) :=
  match transact (fun st0 =>
      match dbValues saveRec env ent schema st0 with
      | .error e => .error e
      | .ok (row, st1) =>
        let st2 : St := { st1 with store := storePut st1.store ent.uuid ent.cls row }
        .ok { st2 with cache := cacheSet st2.cache ent.uuid .mat }) st with
  | .error e => .error e
  | .ok st' => .ok (true, { st' with cache := cacheSet st'.cache ent.uuid .ph })

/--
`save(cache)` when a cache was passed in (the cascade path, source lines
778-809): re-encountering the toplevel or any cached uuid returns `true`
immediately; otherwise the row is computed and written inside `transact`.
Note the entity is *not* added to the cache before its own `dbValues` runs;
only completed saves (and the toplevel) are visible to re-encounters.
-/
def saveGo (env : SEnv) (tc : TC) : Nat → String → St → Except (SErr × St) (Bool × St)
  | 0, _, st => .error (.stackOverflow, st)
  | fuel + 1, u, st =>
    match envFind env u with
    | none => .error (.missingEntity, st)
    | some ent =>
      match tc.lookup ent.cls with
      | none => .error (.schemaMissing, st)
      | some schema =>
        if u == st.cache.toplevel then .ok (true, st)
        else if (st.cache.m.lookup u).isSome then .ok (true, st)
        else saveWrite (saveGo env tc fuel) env ent schema st

/-- `save()` with no cache (the top-level call): create the cache with
`toplevel` set to this entity and pre-mark this uuid with a placeholder,
then run the write phase (no short-circuit checks on this path). -/
def saveTop (env : SEnv) (tc : TC) (fuel : Nat) (u : String) (store : Store) :
    Except (SErr × St) (Bool × St) :=
  match envFind env u with
  | none => .error (.missingEntity, { cache := ⟨u, []⟩, store := store })
  | some ent =>
    match tc.lookup ent.cls with
    | none => .error (.schemaMissing, { cache := ⟨u, []⟩, store := store })
    | some schema =>
      saveWrite (saveGo env tc fuel) env ent schema
        { cache := ⟨u, [(u, .ph)]⟩, store := store }

/-! ## The load protocol -/

/-- Errors raised on the load path. -/
inductive LErr : Type where
  | stackOverflow : LErr    -- RangeError: maximum call stack size exceeded
  | notFound : LErr         -- no object with uuid ... found
  | typeErr : LErr          -- TypeError (e.g. tableInfo[k] is undefined)
deriving DecidableEq

/-- A rehydrated in-memory object: its class and its own properties.
Objects live in a heap (`Heap`) and are referenced by address, so that
reference identity (aliasing) is observable in the model. -/
structure LObj where
  cls : String
  props : Entries

abbrev Heap := List LObj

/-- The load-scoped cache: `{ toplevel: aUUID }` plus resolved uuids mapping
to the address of the materialized object. -/
structure LCache where
  toplevel : String
  m : List (String × Nat)

mutual
/--
The `JSON.parse` reviver of `loadWithUUID` (source lines 904-921), applied
bottom-up: object members are revived first, then the node itself.  A node
that is an `Object` is checked for the Reference Token shape: its `class` is
looked up in the Type Cache (unknown types leave the raw token in place); a
token whose `uuid` equals the row's own uuid is left as-is; otherwise the
token is replaced by the cached instance, or by recursively loading the uuid
through the shared cache.  `loadRec` is the recursive entry into
`loadWithUUID` of the token's class.
-/
def resolveVal (loadRec : String → String → LCache → Heap → Except LErr (Nat × LCache × Heap))
    (tc : TC) (selfU : String) :
    Val → LCache → Heap → Except LErr (Val × LCache × Heap)
  | .vobj kvs, cache, heap =>
    match resolveEntries loadRec tc selfU kvs cache heap with
    | .error e => .error e
    | .ok (kvs', cache', heap') =>
      match Entries.find kvs' "class" with
      | some (.vstr c) =>
        match tc.lookup c with
        | none => .ok (.vobj kvs', cache', heap')
        | some _ =>
          match Entries.find kvs' "uuid" with
          | some (.vstr u') =>
            if u' == selfU then .ok (.vobj kvs', cache', heap')
            else
              match cache'.m.lookup u' with
              | some addr => .ok (.vinst addr, cache', heap')
              | none =>
                match loadRec c u' cache' heap' with
                | .error e => .error e
                | .ok (addr, cache'', heap'') =>
                  .ok (.vinst addr, { cache'' with m := setA cache''.m u' addr }, heap'')
          | _ => .error .notFound
      | _ => .ok (.vobj kvs', cache', heap')
  | .varr xs, cache, heap =>
    match resolveElems loadRec tc selfU xs cache heap with
    | .error e => .error e
    | .ok (xs', cache', heap') => .ok (.varr xs', cache', heap')
  | v, cache, heap => .ok (v, cache, heap)

/-- Revive the members of an object in property order, threading cache and
heap through recursive loads. -/
def resolveEntries (loadRec : String → String → LCache → Heap → Except LErr (Nat × LCache × Heap))
    (tc : TC) (selfU : String) :
    Entries → LCache → Heap → Except LErr (Entries × LCache × Heap)
  | .nil, cache, heap => .ok (.nil, cache, heap)
  | .cons k v rest, cache, heap =>
    match resolveVal loadRec tc selfU v cache heap with
    | .error e => .error e
    | .ok (v', cache', heap') =>
      match resolveEntries loadRec tc selfU rest cache' heap' with
      | .error e => .error e
      | .ok (rest', cache'', heap'') => .ok (.cons k v' rest', cache'', heap'')

/-- Revive the elements of an array in order. -/
def resolveElems (loadRec : String → String → LCache → Heap → Except LErr (Nat × LCache × Heap))
    (tc : TC) (selfU : String) :
    Elems → LCache → Heap → Except LErr (Elems × LCache × Heap)
  | .nil, cache, heap => .ok (.nil, cache, heap)
  | .cons v rest, cache, heap =>
    match resolveVal loadRec tc selfU v cache heap with
    | .error e => .error e
    | .ok (v', cache', heap') =>
      match resolveElems loadRec tc selfU rest cache' heap' with
      | .error e => .error e
      | .ok (rest', cache'', heap'') => .ok (.cons v' rest', cache'', heap'')
end

/--
The per-column `toJSValue` pass of `loadWithUUID` (source lines 924-947):
each entry's column type is looked up in the cached `tableInfo` (a key that
is not a column makes `tableInfo[k].type` throw, `typeErr`); the only
registered `toJSValue` is DATETIME's `new Date(e)`; all other declared types
(and FK columns, whose type has no conversions entry) keep the value as-is.
-/
def convertEntries (schema : List (String × ColT)) : Entries → Except LErr Entries
  | .nil => .ok .nil
  | .cons k v rest =>
    match schema.lookup k with
    | none => .error .typeErr
    | some ty =>
      match convertEntries schema rest with
      | .error e => .error e
      | .ok rest' =>
        .ok (.cons k (match ty with | .datetimeT => jsNewDate v | _ => v) rest')

/-- The tail of `loadWithUUID`: apply the column conversions, construct the
object (`Object.create(new this(), objectProperties)`), register it in the
cache under its uuid, and return it (source lines 924-949).  The new object
is appended to the heap; its address is the reference returned. -/
def loadFinish (tc : TC) (cls u : String) (entries : Entries)
    (cache : LCache) (heap : Heap) : Except LErr (Nat × LCache × Heap) :=
  match tc.lookup cls with
  | none => .error .typeErr
  | some schema =>
    match convertEntries schema entries with
    | .error e => .error e
    | .ok props =>
      .ok (heap.length, { cache with m := setA cache.m u heap.length },
           heap ++ [⟨cls, props⟩])

/--
`loadWithUUID(aUUID, cache)` (source lines 890-950): return the cached
instance if present; fetch the row by uuid from this class's table (no row:
`notFound`); if the row has a non-null `flatter` aggregate, parse it with
the token-resolving reviver and use the resulting snapshot in place of the
row; apply per-column conversions and materialize the object.  Note that
the object is registered in the cache only *after* the whole payload has
been parsed.  The recursive occurrence (the reviver's nested
`aClass.loadWithUUID`) is the parameter `loadRec`; `loadFuel` below ties the
knot with a fuel bound standing for the JS call stack.
-/
def loadBody (store : Store) (tc : TC)
    (loadRec : String → String → LCache → Heap → Except LErr (Nat × LCache × Heap))
    (cls u : String) (cache : LCache) (heap : Heap) :
    Except LErr (Nat × LCache × Heap) :=
  match cache.m.lookup u with
  | some addr => .ok (addr, cache, heap)
  | none =>
    match storeFind store u with
    | none => .error .notFound
    | some (cls', row) =>
      if cls' == cls then
        match Entries.find row "flatter" with
        | some .vnull => loadFinish tc cls u row cache heap
        | none => loadFinish tc cls u row cache heap
        | some p =>
          match resolveVal loadRec tc u p cache heap with
          | .error e => .error e
          | .ok (pv, cache', heap') =>
            let kvs := match pv with | .vobj kvs' => kvs' | _ => Entries.nil
            loadFinish tc cls u kvs cache' heap'
      else .error .notFound

def loadFuel (store : Store) (tc : TC) :
    Nat → String → String → LCache → Heap → Except LErr (Nat × LCache × Heap)
  | 0, _, _, _, _ => .error .stackOverflow
  | fuel + 1, cls, u, cache, heap =>
    loadBody store tc (loadFuel store tc fuel) cls u cache heap

/-- `loadWithUUID(aUUID)` with no cache passed: create
`cache = { toplevel: aUUID }` (source line 891). -/
def loadTop (fuel : Nat) (store : Store) (tc : TC) (cls u : String) (heap : Heap) :
    Except LErr (Nat × LCache × Heap) :=
  loadFuel store tc fuel cls u { toplevel := u, m := [] } heap

/--
`load(criteria, _cache?)` (source lines 982-989): the criteria are turned
into a `SELECT uuid ... WHERE` by the external `criterion` translator (the
matching identifiers are a parameter here, mirroring that external
collaborator), and each matching identifier is delegated to
`this.loadWithUUID(row.uuid)` — with *no cache argument*: each element of
the batch builds its own fresh cache.  The process heap is shared, so the
per-call addresses make duplication across the batch observable.
-/
def load (fuel : Nat) (store : Store) (tc : TC) (cls : String) :
    List String → Heap → Except LErr (List Nat × Heap)
  | [], heap => .ok ([], heap)
  | u :: rest, heap =>
    match loadFuel store tc fuel cls u { toplevel := u, m := [] } heap with
    | .error e => .error e
    | .ok (addr, _, heap') =>
      match load fuel store tc cls rest heap' with
      | .error e => .error e
      | .ok (addrs, heap'') => .ok (addr :: addrs, heap'')

/--
The `Flatter` constructor (source lines 433-436):
`this.uuid = crypto.randomUUID(); if (aTemplate) Object.assign(this,
aTemplate);` — the freshly generated uuid (a parameter here, as the model
has no randomness) is assigned first, and `Object.assign` then copies every
own enumerable property of the template over the instance, *including* a
`uuid` property if the template has one.  Non-string `uuid` template values
are outside the modelled scope (they would be copied just the same).
-/
def flatterNew (cls : String) (freshUUID : String) (template : List (String × FVal)) : Ent :=
  { cls := cls
    uuid := match template.lookup "uuid" with
            | some (.fstr t) => t
            | _ => freshUUID
    fields := template.filter (fun kv => kv.1 ≠ "uuid") }

mutual
/-- A stored value is *clean* for a row with uuid `selfU` when the reviver's
token resolution leaves it untouched: every object node either has no
usable `class` (absent, non-string, or naming a type absent from the Type
Cache — the unknown-type degradation path) or is the row's own anchor
(`uuid` equal to `selfU`). -/
def cleanVal (tc : TC) (selfU : String) : Val → Bool
  | .vobj kvs =>
    cleanEntries tc selfU kvs &&
    (match Entries.find kvs "class" with
     | some (.vstr c) =>
       (match tc.lookup c with
        | none => true
        | some _ =>
          match Entries.find kvs "uuid" with
          | some (.vstr u') => u' == selfU
          | _ => false)
     | _ => true)
  | .varr xs => cleanElems tc selfU xs
  | _ => true

/-- Pointwise cleanliness of object members. -/
def cleanEntries (tc : TC) (selfU : String) : Entries → Bool
  | .nil => true
  | .cons _ v rest => cleanVal tc selfU v && cleanEntries tc selfU rest

/-- Pointwise cleanliness of array elements. -/
def cleanElems (tc : TC) (selfU : String) : Elems → Bool
  | .nil => true
  | .cons v rest => cleanVal tc selfU v && cleanElems tc selfU rest
end

/-! ### Expected wire and loaded forms of scalar fields (for the round-trip
statement): what `JSON.stringify` puts in the aggregate snapshot, and what
the load-side conversions make of it. -/

/-- The snapshot (wire) form of a field value: a `Date` serializes to its
ISO-8601 string, and plain JSON data is embedded after the same
`Date.prototype.toJSON` pass `JSON.stringify` performs on its nodes. -/
def wireOf : FVal → Val
  | .fstr s => .vstr s
  | .fnum n => .vnum n
  | .fdate ms => .viso ms
  | .fjson v => jsonStringifyVal v
  | .fref _ => .vnull

/-- The value a round-tripped field comes back as: strings unchanged, a
top-level `Date` field a `Date` again (the DATETIME column's `toJSValue`
is `new Date(iso)`), and an aggregate-column JSON value exactly as stored —
the OBJECT type has no `toJSValue`, so any `Date` that was nested inside it
comes back as its ISO string (`jsonStringifyVal`), not as a `Date`. -/
def loadedVal : FVal → Val
  | .fstr s => .vstr s
  | .fnum n => .vnum n
  | .fdate ms => .vdate ms
  | .fjson v => jsonStringifyVal v
  | .fref _ => .vnull

def serFieldsPure : List (String × FVal) → Entries
  | [] => .nil
  | (k, fv) :: fs => .cons k (wireOf fv) (serFieldsPure fs)

def loadedEntries : List (String × FVal) → Entries
  | [] => .nil
  | (k, fv) :: fs => .cons k (loadedVal fv) (loadedEntries fs)

/-- The aggregate snapshot `save` stores for an entity without embedded
entities: its own properties, `uuid` first. -/
def payloadOf (u : String) (fields : List (String × FVal)) : Val :=
  .vobj (.cons "uuid" (.vstr u) (serFieldsPure fields))

/-- The scalar column cells of such an entity's row, per declared type. -/
def cellsPure : List (String × ColT) → List (String × FVal) → Entries
  | (cn, ty) :: cs, (_, fv) :: fs =>
    .cons cn (match ty with
              | .datetimeT => DATETIME_toDBValue fv
              | .objectT => wireOf fv
              | _ => fvalRaw fv) (cellsPure cs fs)
  | _, _ => .nil

/-- The full row `save` writes for such an entity: the uuid column, the
scalar columns, and the `flatter` aggregate snapshot. -/
def rowOf (u : String) (cols : List (String × ColT)) (fields : List (String × FVal)) : Row :=
  .cons "uuid" (.vstr u)
    ((cellsPure cols fields).append (.cons "flatter" (payloadOf u fields) .nil))

mutual
/-- Strong cleanliness, independent of any row: no object node anywhere in
the value carries a `class` member naming a registered type — so the value
can never be mistaken for a Reference Token, whatever row it is loaded
from. -/
def strongCleanVal (tc : TC) : Val → Bool
  | .vobj kvs =>
    strongCleanEntries tc kvs &&
    (match Entries.find kvs "class" with
     | some (.vstr c) => (tc.lookup c).isNone
     | _ => true)
  | .varr xs => strongCleanElems tc xs
  | _ => true

def strongCleanEntries (tc : TC) : Entries → Bool
  | .nil => true
  | .cons _ v rest => strongCleanVal tc v && strongCleanEntries tc rest

def strongCleanElems (tc : TC) : Elems → Bool
  | .nil => true
  | .cons v rest => strongCleanVal tc v && strongCleanElems tc rest
end

mutual
/-- Plain JSON data: strings, numbers, null, objects and arrays of the
same — and no live `Date` (or other non-JSON) nodes.  On such data
`JSON.stringify` performs no `toJSON` conversion, so storing it is the
identity; a value containing a `Date` is *not* plain: the `Date` would be
stored as its ISO string and come back as a string. -/
def pureJson : Val → Bool
  | .vnull => true
  | .vstr _ => true
  | .vnum _ => true
  | .vobj kvs => pureJsonEntries kvs
  | .varr xs => pureJsonElems xs
  | _ => false

def pureJsonEntries : Entries → Bool
  | .nil => true
  | .cons _ v rest => pureJson v && pureJsonEntries rest

def pureJsonElems : Elems → Bool
  | .nil => true
  | .cons v rest => pureJson v && pureJsonElems rest
end

/-- A field value is admissible for its declared column type: text holds a
string, timestamp holds a `Date`, aggregate holds *plain JSON* data (no
`Date` nodes inside — a nested `Date` would be stored as a string and not
round-trip) that is strongly clean (no plain object masquerading as a
Reference Token of a registered class). -/
def fvalMatch (tc : TC) : ColT → FVal → Bool
  | .textT, .fstr _ => true
  | .datetimeT, .fdate _ => true
  | .objectT, .fjson v => strongCleanVal tc v && pureJson v
  | _, _ => false

/-- Pairwise match of the scalar columns of a schema against the fields of
an entity: same names in the same order, names distinct from the reserved
`uuid`/`flatter` columns, each value admissible for its column type. -/
def colsMatch (tc : TC) : List (String × ColT) → List (String × FVal) → Bool
  | [], [] => true
  | (cn, ty) :: cs, (fn, fv) :: fs =>
    cn == fn && !(fn == "uuid") && !(fn == "flatter") && fvalMatch tc ty fv &&
      colsMatch tc cs fs
  | _, _ => false

/-! ## Concrete worlds used by the claim theorems -/

/-- Schemas of two classes A, B whose instances embed each other
(`a.emb = b`, `b.emb = a`): the spec's cycle-termination scenario. -/
def tcAB : TC :=
  [("A", [("uuid", .uuidT), ("emb", .fkref "B"), ("flatter", .objectT)]),
   ("B", [("uuid", .uuidT), ("emb", .fkref "A"), ("flatter", .objectT)])]

def entA : Ent := ⟨"A", "a", [("emb", .fref "b")]⟩
def entB : Ent := ⟨"B", "b", [("emb", .fref "a")]⟩
def envAB : SEnv := [entA, entB]

/-- The row `save(a)` writes for `a`: scalar uuid, the FK substituted by the
referenced uuid, and the aggregate snapshot with a Reference Token for `b`. -/
def rowA : Row :=
  .cons "uuid" (.vstr "a") (.cons "emb" (.vstr "b")
    (.cons "flatter" (.vobj (.cons "uuid" (.vstr "a")
      (.cons "emb" (token "B" "b") .nil))) .nil))

def rowB : Row :=
  .cons "uuid" (.vstr "b") (.cons "emb" (.vstr "a")
    (.cons "flatter" (.vobj (.cons "uuid" (.vstr "b")
      (.cons "emb" (token "A" "a") .nil))) .nil))

/-- The database contents after `save(a)` in the `envAB` world. -/
def storeAB : Store := [("b", ("B", rowB)), ("a", ("A", rowA))]

/-- A three-class world whose reference cycle does not pass through the
top-level entity: `a.emb = b`, `b.emb = c`, `c.emb = b`. -/
def tc3 : TC :=
  [("A", [("uuid", .uuidT), ("emb", .fkref "B"), ("flatter", .objectT)]),
   ("B", [("uuid", .uuidT), ("emb", .fkref "C"), ("flatter", .objectT)]),
   ("C", [("uuid", .uuidT), ("emb", .fkref "B"), ("flatter", .objectT)])]

def entA3 : Ent := ⟨"A", "a", [("emb", .fref "b")]⟩
def entB3 : Ent := ⟨"B", "b", [("emb", .fref "c")]⟩
def entC3 : Ent := ⟨"C", "c", [("emb", .fref "b")]⟩
def env3 : SEnv := [entA3, entB3, entC3]

/-- The save state when the cascade of `save(a)` first reaches `b` in the
`env3` world: only the toplevel is pre-marked, nothing written yet. -/
def st3 : St := { cache := ⟨"a", [("a", .ph)]⟩, store := [] }

/-- A world exercising a forced converter failure: the declared FK column
`bad` holds a plain string, so `dbValues` finds no conversions entry for the
column's declared type and reading `.toDBValue` of `undefined` throws. -/
def tc4 : TC := [("A", [("uuid", .uuidT), ("bad", .fkref "B"), ("flatter", .objectT)])]
def env4 : SEnv := [⟨"A", "u4", [("bad", .fstr "oops")]⟩]
def store4 : Store := [("pre", ("X", .nil))]

/-- A single scalar entity (used for the cache-contents claims). -/
def tc6 : TC := [("A", [("uuid", .uuidT), ("name", .textT), ("flatter", .objectT)])]
def env6 : SEnv := [⟨"A", "u6", [("name", .fstr "n")]⟩]
def row6 : Row :=
  .cons "uuid" (.vstr "u6") (.cons "name" (.vstr "n")
    (.cons "flatter" (.vobj (.cons "uuid" (.vstr "u6")
      (.cons "name" (.vstr "n") .nil))) .nil))
def store6 : Store := [("u6", ("A", row6))]

/-- Two owners `u1`, `u2` of class A, each referencing the same shared
entity `w` of class B through both of their reference fields. -/
def tc5 : TC :=
  [("A", [("uuid", .uuidT), ("emb", .fkref "B"), ("emb2", .fkref "B"), ("flatter", .objectT)]),
   ("B", [("uuid", .uuidT), ("name", .textT), ("flatter", .objectT)])]

def env5 : SEnv :=
  [⟨"A", "u1", [("emb", .fref "w"), ("emb2", .fref "w")]⟩,
   ⟨"A", "u2", [("emb", .fref "w"), ("emb2", .fref "w")]⟩,
   ⟨"B", "w", [("name", .fstr "shared")]⟩]

def roww5 : Row :=
  .cons "uuid" (.vstr "w") (.cons "name" (.vstr "shared")
    (.cons "flatter" (.vobj (.cons "uuid" (.vstr "w")
      (.cons "name" (.vstr "shared") .nil))) .nil))

def rowu1 : Row :=
  .cons "uuid" (.vstr "u1") (.cons "emb" (.vstr "w") (.cons "emb2" (.vstr "w")
    (.cons "flatter" (.vobj (.cons "uuid" (.vstr "u1")
      (.cons "emb" (token "B" "w") (.cons "emb2" (token "B" "w") .nil)))) .nil)))

def rowu2 : Row :=
  .cons "uuid" (.vstr "u2") (.cons "emb" (.vstr "w") (.cons "emb2" (.vstr "w")
    (.cons "flatter" (.vobj (.cons "uuid" (.vstr "u2")
      (.cons "emb" (token "B" "w") (.cons "emb2" (token "B" "w") .nil)))) .nil)))

/-- The database after `save(u1); save(u2)` in the `env5` world. -/
def store5 : Store := [("w", ("B", roww5)), ("u1", ("A", rowu1)), ("u2", ("A", rowu2))]

/-- The copy of `w` materialized by a load. -/
def wObj5 : LObj := ⟨"B", .cons "uuid" (.vstr "w") (.cons "name" (.vstr "shared") .nil)⟩

def u1Obj5 : LObj :=
  ⟨"A", .cons "uuid" (.vstr "u1")
    (.cons "emb" (.vinst 0) (.cons "emb2" (.vinst 0) .nil))⟩

def u2Obj5 : LObj :=
  ⟨"A", .cons "uuid" (.vstr "u2")
    (.cons "emb" (.vinst 2) (.cons "emb2" (.vinst 2) .nil))⟩

/-- The heap after the two-element criteria load: the shared entity `w` is
materialized twice (addresses 0 and 2), once per batch element. -/
def heap5 : Heap := [wObj5, u1Obj5, wObj5, u2Obj5]

/-- A world for the round-trip counterexample: the entity's plain JSON
field `x` is a token-shaped object naming the *registered* class B and a
uuid for which no row exists. -/
def tc2 : TC :=
  [("A", [("uuid", .uuidT), ("x", .objectT), ("flatter", .objectT)]),
   ("B", [("uuid", .uuidT), ("flatter", .objectT)])]

def ent2 : Ent := ⟨"A", "ua", [("x", .fjson (token "B" "zzz"))]⟩
def env2 : SEnv := [ent2]

/-- The row `save(ent2)` writes: the token-shaped plain value is stored
verbatim (it is not a `Flatter` instance, so the replacer leaves it). -/
def row2 : Row :=
  .cons "uuid" (.vstr "ua") (.cons "x" (token "B" "zzz")
    (.cons "flatter" (.vobj (.cons "uuid" (.vstr "ua")
      (.cons "x" (token "B" "zzz") .nil))) .nil))

def store2 : Store := [("ua", ("A", row2))]

/-- A world for the round-trip witness: one entity with a text, a
timestamp, and a plain-JSON aggregate field. -/
def tcW : TC :=
  [("W", [("uuid", .uuidT), ("name", .textT), ("born", .datetimeT),
          ("meta", .objectT), ("flatter", .objectT)])]

def colsW : List (String × ColT) :=
  [("name", .textT), ("born", .datetimeT), ("meta", .objectT)]

def fieldsW : List (String × FVal) :=
  [("name", .fstr "bill"), ("born", .fdate 86400000),
   ("meta", .fjson (.vobj (.cons "bio" (.vstr "hi") .nil)))]

def entW : Ent := ⟨"W", "uw", fieldsW⟩
def envW : SEnv := [entW]

/-- A world for the unknown-type degradation claim: the stored aggregate of
`u8` contains a Reference Token naming the never-registered class Ghost. -/
def tc8 : TC := [("A", [("uuid", .uuidT), ("ghost", .objectT), ("flatter", .objectT)])]

def row8 : Row :=
  .cons "uuid" (.vstr "u8")
    (.cons "flatter" (.vobj (.cons "uuid" (.vstr "u8")
      (.cons "ghost" (token "Ghost" "g1") .nil))) .nil)

def store8 : Store := [("u8", ("A", row8))]

/-- The properties of the object `loadWithUUID("u8")` materializes: the
unknown-class token survives as the raw token object. -/
def props8 : Entries :=
  .cons "uuid" (.vstr "u8") (.cons "ghost" (token "Ghost" "g1") .nil)

/-! ## Generic lemmas about the association-list helpers -/

theorem lookup_of_mem_of_nodup {β : Type} {l : List (String × β)} {k : String} {v : β}
    (hnd : (l.map Prod.fst).Nodup) (hm : (k, v) ∈ l) : l.lookup k = some v := by
  induction l with
  | nil => cases hm
  | cons hd tl ih =>
    rw [List.map_cons, List.nodup_cons] at hnd
    rcases List.mem_cons.mp hm with h | h
    · subst h; simp [List.lookup]
    · have hne : k ≠ hd.1 := by
        intro he
        exact hnd.1 (he ▸ List.mem_map_of_mem Prod.fst h)
      simp only [List.lookup, beq_eq_false_iff_ne.mpr hne]
      exact ih hnd.2 h

theorem lookup_setA_self {α : Type} (m : List (String × α)) (u : String) (a : α) :
    (setA m u a).lookup u = some a := by
  induction m with
  | nil => simp [setA, List.lookup]
  | cons hd tl ih =>
    by_cases h : hd.1 = u
    · simp [setA, h, List.lookup]
    · simp only [setA, beq_eq_false_iff_ne.mpr h, if_false, List.lookup,
        beq_eq_false_iff_ne.mpr (Ne.symm h)]
      exact ih

theorem storeFind_put_self (s : Store) (u c : String) (r : Row) :
    storeFind (storePut s u c r) u = some (c, r) := by
  induction s with
  | nil => simp [storePut, storeFind, List.find?]
  | cons hd tl ih =>
    by_cases h : hd.1 = u
    · simp [storePut, storeFind, h, List.find?]
    · simpa [storePut, storeFind, beq_eq_false_iff_ne.mpr h, List.find?] using ih

theorem find_append : ∀ (e1 : Entries) (e2 : Entries) (k : String),
    (e1.append e2).find k =
      (match e1.find k with
       | some v => some v
       | none => e2.find k)
  | .nil, e2, k => by simp [Entries.append, Entries.find]
  | .cons k' v rest, e2, k => by
    by_cases h : k' = k
    · simp [Entries.append, Entries.find, h]
    · simp only [Entries.append, Entries.find, beq_eq_false_iff_ne.mpr h, if_false]
      exact find_append rest e2 k

theorem envFind_uuid {env : SEnv} {u : String} {ent : Ent}
    (h : envFind env u = some ent) : ent.uuid = u := by
  have := List.find?_some h
  simpa using this

/-! ## Token resolution is the identity on clean values -/

mutual
/-- The reviver leaves a clean value untouched: unknown-class tokens stay
as raw tokens, the row's own anchor stays in place, and plain data passes
through — with no cache or heap effect (mutual with the entry/element
versions below). -/
theorem resolve_clean_val
    (lr : String → String → LCache → Heap → Except LErr (Nat × LCache × Heap))
    (tc : TC) (selfU : String) :
    ∀ (v : Val) (cache : LCache) (heap : Heap), cleanVal tc selfU v = true →
      resolveVal lr tc selfU v cache heap = .ok (v, cache, heap)
  | .vobj kvs, cache, heap, h => by
    rw [cleanVal, Bool.and_eq_true] at h
    rw [resolveVal, resolve_clean_entries lr tc selfU kvs cache heap h.1]
    have h2 := h.2
    cases hc : Entries.find kvs "class" with
    | none => simp [hc]
    | some vc =>
      cases vc with
      | vstr c =>
        simp only [hc] at h2
        cases ht : tc.lookup c with
        | none => simp [hc, ht]
        | some x =>
          simp only [ht] at h2
          cases hu : Entries.find kvs "uuid" with
          | none => simp only [hu] at h2; cases h2
          | some vu =>
            simp only [hu] at h2
            cases vu with
            | vstr u' =>
              have : u' = selfU := by simpa using h2
              simp [hc, ht, hu, this]
            | vnull => simp only [hu] at h2; cases h2
            | vnum n => simp only [hu] at h2; cases h2
            | vdate ms => simp only [hu] at h2; cases h2
            | viso ms => simp only [hu] at h2; cases h2
            | vinvalidDate => simp only [hu] at h2; cases h2
            | vinst a => simp only [hu] at h2; cases h2
            | vobj kvs2 => simp only [hu] at h2; cases h2
            | varr xs2 => simp only [hu] at h2; cases h2
      | vnull => simp [hc]
      | vnum n => simp [hc]
      | vdate ms => simp [hc]
      | viso ms => simp [hc]
      | vinvalidDate => simp [hc]
      | vinst a => simp [hc]
      | vobj kvs2 => simp [hc]
      | varr xs2 => simp [hc]
  | .varr xs, cache, heap, h => by
    rw [cleanVal] at h
    rw [resolveVal, resolve_clean_elems lr tc selfU xs cache heap h]
  | .vnull, _, _, _ => rfl
  | .vstr s, _, _, _ => rfl
  | .vnum n, _, _, _ => rfl
  | .vdate ms, _, _, _ => rfl
  | .viso ms, _, _, _ => rfl
  | .vinvalidDate, _, _, _ => rfl
  | .vinst a, _, _, _ => rfl

theorem resolve_clean_entries
    (lr : String → String → LCache → Heap → Except LErr (Nat × LCache × Heap))
    (tc : TC) (selfU : String) :
    ∀ (es : Entries) (cache : LCache) (heap : Heap), cleanEntries tc selfU es = true →
      resolveEntries lr tc selfU es cache heap = .ok (es, cache, heap)
  | .nil, _, _, _ => rfl
  | .cons k v rest, cache, heap, h => by
    rw [cleanEntries, Bool.and_eq_true] at h
    simp only [resolveEntries, resolve_clean_val lr tc selfU v cache heap h.1,
      resolve_clean_entries lr tc selfU rest cache heap h.2]

theorem resolve_clean_elems
    (lr : String → String → LCache → Heap → Except LErr (Nat × LCache × Heap))
    (tc : TC) (selfU : String) :
    ∀ (xs : Elems) (cache : LCache) (heap : Heap), cleanElems tc selfU xs = true →
      resolveElems lr tc selfU xs cache heap = .ok (xs, cache, heap)
  | .nil, _, _, _ => rfl
  | .cons v rest, cache, heap, h => by
    rw [cleanElems, Bool.and_eq_true] at h
    simp only [resolveElems, resolve_clean_val lr tc selfU v cache heap h.1,
      resolve_clean_elems lr tc selfU rest cache heap h.2]
end

mutual
/-- Strong cleanliness implies cleanliness for every row uuid: a value with
no registered-class tokens at all can never be resolved, whichever row it
is loaded from. -/
theorem strongClean_clean_val (tc : TC) (selfU : String) :
    ∀ v : Val, strongCleanVal tc v = true → cleanVal tc selfU v = true
  | .vobj kvs, h => by
    rw [strongCleanVal, Bool.and_eq_true] at h
    rw [cleanVal, Bool.and_eq_true]
    refine ⟨strongClean_clean_entries tc selfU kvs h.1, ?_⟩
    have h2 := h.2
    cases hc : Entries.find kvs "class" with
    | none => simp
    | some vc =>
      cases vc with
      | vstr c =>
        simp only [hc] at h2
        cases ht : tc.lookup c with
        | none => simp [ht]
        | some x => rw [ht] at h2; simp at h2
      | vnull => simp [hc]
      | vnum n => simp [hc]
      | vdate ms => simp [hc]
      | viso ms => simp [hc]
      | vinvalidDate => simp [hc]
      | vinst a => simp [hc]
      | vobj kvs2 => simp [hc]
      | varr xs2 => simp [hc]
  | .varr xs, h => by
    rw [strongCleanVal] at h
    rw [cleanVal]
    exact strongClean_clean_elems tc selfU xs h
  | .vnull, _ => rfl
  | .vstr s, _ => rfl
  | .vnum n, _ => rfl
  | .vdate ms, _ => rfl
  | .viso ms, _ => rfl
  | .vinvalidDate, _ => rfl
  | .vinst a, _ => rfl

theorem strongClean_clean_entries (tc : TC) (selfU : String) :
    ∀ es : Entries, strongCleanEntries tc es = true → cleanEntries tc selfU es = true
  | .nil, _ => rfl
  | .cons k v rest, h => by
    rw [strongCleanEntries, Bool.and_eq_true] at h
    rw [cleanEntries, Bool.and_eq_true]
    exact ⟨strongClean_clean_val tc selfU v h.1, strongClean_clean_entries tc selfU rest h.2⟩

theorem strongClean_clean_elems (tc : TC) (selfU : String) :
    ∀ xs : Elems, strongCleanElems tc xs = true → cleanElems tc selfU xs = true
  | .nil, _ => rfl
  | .cons v rest, h => by
    rw [strongCleanElems, Bool.and_eq_true] at h
    rw [cleanElems, Bool.and_eq_true]
    exact ⟨strongClean_clean_val tc selfU v h.1, strongClean_clean_elems tc selfU rest h.2⟩
end

/-! ## C8 -/

/--
C8: for every stored row whose aggregate payload is clean — in particular
when every Reference-Token-shaped node in it names a type absent from the
Type Cache — `loadWithUUID` succeeds: the reviver leaves such nodes in
place as raw token objects, the per-column conversions run, and the object
is materialized; nothing in the payload aborts the load.  The resulting
properties are exactly the payload entries (converted per column type),
with each unknown token still sitting in its original position.
-/
theorem C8_unknown_type_token_degrades
    (fuel : Nat) (store : Store) (tc : TC) (cls u : String) (row : Row)
    (kvs props : Entries) (cache : LCache) (heap : Heap)
    (schema : List (String × ColT))
    (hcache : cache.m.lookup u = none)
    (hrow : storeFind store u = some (cls, row))
    (hflat : Entries.find row "flatter" = some (.vobj kvs))
    (hclean : cleanVal tc u (.vobj kvs) = true)
    (hschema : tc.lookup cls = some schema)
    (hconv : convertEntries schema kvs = .ok props) :
    loadFuel store tc (fuel + 1) cls u cache heap =
      .ok (heap.length, { cache with m := setA cache.m u heap.length },
           heap ++ [⟨cls, props⟩]) := by
  have hid := resolve_clean_val (loadFuel store tc fuel) tc u (.vobj kvs) cache heap hclean
  show loadBody store tc (loadFuel store tc fuel) cls u cache heap = _
  unfold loadBody
  simp only [hcache, hrow, beq_self_eq_true, if_true, hflat, hid, hschema, hconv, loadFinish]

/-- C8 witness: the concrete store whose aggregate for `u8` holds a token
naming the never-registered class Ghost; the load succeeds and the raw
token is still present at its position in the materialized properties. -/
theorem C8_unknown_type_token_degrades_witness :
    (⟨"u8", []⟩ : LCache).m.lookup "u8" = none ∧
    storeFind store8 "u8" = some ("A", row8) ∧
    Entries.find row8 "flatter" = some (.vobj props8) ∧
    cleanVal tc8 "u8" (.vobj props8) = true ∧
    tc8.lookup "A" = some [("uuid", .uuidT), ("ghost", .objectT), ("flatter", .objectT)] ∧
    convertEntries [("uuid", .uuidT), ("ghost", .objectT), ("flatter", .objectT)] props8 =
      .ok props8 ∧
    loadFuel store8 tc8 1 "A" "u8" ⟨"u8", []⟩ [] =
      .ok (0, ⟨"u8", [("u8", 0)]⟩, [⟨"A", props8⟩]) ∧
    Entries.find props8 "ghost" = some (token "Ghost" "g1") := by
  refine ⟨rfl, rfl, rfl, rfl, rfl, rfl, ?_, rfl⟩
  exact C8_unknown_type_token_degrades 0 store8 tc8 "A" "u8" row8 props8 props8
    ⟨"u8", []⟩ [] [("uuid", .uuidT), ("ghost", .objectT), ("flatter", .objectT)]
    rfl rfl rfl rfl rfl rfl

/-! ## Round-trip machinery (C2) -/

theorem serFields_pure (tc : TC) (sr : String → St → Except (SErr × St) (Bool × St))
    (env : SEnv) (self : String) :
    ∀ (cols : List (String × ColT)) (fs : List (String × FVal)) (st : St),
      colsMatch tc cols fs = true →
      serFields sr env self fs st = .ok (serFieldsPure fs, st)
  | [], [], st, h => rfl
  | [], f :: fs, st, h => by simp [colsMatch] at h
  | c :: cs, [], st, h => by simp [colsMatch] at h
  | (cn, ty) :: cs, (fn, fv) :: fs, st, h => by
    simp only [colsMatch, Bool.and_eq_true] at h
    obtain ⟨⟨⟨⟨h1, h2⟩, h3⟩, h4⟩, h5⟩ := h
    have ih := serFields_pure tc sr env self cs fs st h5
    cases ty <;> cases fv <;> simp [fvalMatch] at h4 <;>
      simp [serFields, serializeFVal, wireOf, serFieldsPure, ih]

theorem lookup_append_left {α : Type} [BEq α] {β : Type} {l1 : List (α × β)} {k : α} {v : β}
    (h : l1.lookup k = some v) (l2 : List (α × β)) : (l1 ++ l2).lookup k = some v := by
  induction l1 with
  | nil => simp [List.lookup] at h
  | cons hd tl ih =>
    rw [List.cons_append, List.lookup]
    rw [List.lookup] at h
    cases hk : (k == hd.1) with
    | true => simpa [hk] using h
    | false => rw [hk] at h; simpa [hk] using ih h

theorem colsMatch_keys_eq (tc : TC) :
    ∀ (cols : List (String × ColT)) (fs : List (String × FVal)),
      colsMatch tc cols fs = true → cols.map Prod.fst = fs.map Prod.fst
  | [], [], _ => rfl
  | [], f :: fs, h => by simp [colsMatch] at h
  | c :: cs, [], h => by simp [colsMatch] at h
  | (cn, ty) :: cs, (fn, fv) :: fs, h => by
    simp only [colsMatch, Bool.and_eq_true] at h
    obtain ⟨⟨⟨⟨h1, h2⟩, h3⟩, h4⟩, h5⟩ := h
    simp only [List.map_cons]
    exact congrArg₂ (· :: ·) (by simpa using h1) (colsMatch_keys_eq tc cs fs h5)

theorem colsMatch_not_reserved (tc : TC) :
    ∀ (cols : List (String × ColT)) (fs : List (String × FVal)),
      colsMatch tc cols fs = true →
      ∀ kt ∈ cols, (kt.1 == "uuid") = false ∧ (kt.1 == "flatter") = false
  | [], [], _ => by intro kt hkt; cases hkt
  | [], f :: fs, h => by simp [colsMatch] at h
  | c :: cs, [], h => by simp [colsMatch] at h
  | (cn, ty) :: cs, (fn, fv) :: fs, h => by
    simp only [colsMatch, Bool.and_eq_true] at h
    obtain ⟨⟨⟨⟨h1, h2⟩, h3⟩, h4⟩, h5⟩ := h
    intro kt hkt
    rcases List.mem_cons.mp hkt with he | he
    · subst he
      have hcn : cn = fn := by simpa using h1
      subst hcn
      exact ⟨by simpa using h2, by simpa using h3⟩
    · exact colsMatch_not_reserved tc cs fs h5 kt he



theorem dbValues_pure (tc : TC) (sr : String → St → Except (SErr × St) (Bool × St))
    (env : SEnv) (ent : Ent) :
    ∀ (cols : List (String × ColT)) (fs : List (String × FVal)) (st : St),
      colsMatch tc cols fs = true →
      (∀ kv ∈ fs, ent.fields.lookup kv.1 = some kv.2) →
      serFields sr env ent.uuid ent.fields st = .ok (serFieldsPure ent.fields, st) →
      dbValues sr env ent (cols ++ [("flatter", .objectT)]) st =
        .ok ((cellsPure cols fs).append
              (.cons "flatter"
                (.vobj (.cons "uuid" (.vstr ent.uuid) (serFieldsPure ent.fields))) .nil), st)
  | [], [], st, h, hlk, hser => by
    simp [dbValues, dbCell, serializeEntity, hser, cellsPure, Entries.append]
  | [], f :: fs, st, h, _, _ => by simp [colsMatch] at h
  | c :: cs, [], st, h, _, _ => by simp [colsMatch] at h
  | (cn, ty) :: cs, (fn, fv) :: fs, st, h, hlk, hser => by
    simp only [colsMatch, Bool.and_eq_true] at h
    obtain ⟨⟨⟨⟨h1, h2⟩, h3⟩, h4⟩, h5⟩ := h
    have hcn : cn = fn := by simpa using h1
    subst hcn
    have hlf : ent.fields.lookup cn = some fv := hlk (cn, fv) (List.mem_cons_self _ _)
    have ih := dbValues_pure tc sr env ent cs fs st h5
      (fun kv hkv => hlk kv (List.mem_cons_of_mem _ hkv)) hser
    rw [List.cons_append, dbValues]
    have h2' : (cn == "uuid") = false := by simpa using h2
    have h3' : (cn == "flatter") = false := by simpa using h3
    have hprop : propOf ent cn = some fv := by simp [propOf, h2', hlf]
    cases ty <;> cases fv <;> simp [fvalMatch] at h4 <;>
      simp [dbCell, hprop, h3', serializeFVal, wireOf, cellsPure, Entries.append, ih,
        DATETIME_toDBValue, fvalRaw]



theorem cellsPure_find_flatter_none (tc : TC) :
    ∀ (cols : List (String × ColT)) (fs : List (String × FVal)),
      colsMatch tc cols fs = true →
      (cellsPure cols fs).find "flatter" = none
  | [], [], _ => rfl
  | [], f :: fs, h => by simp [colsMatch] at h
  | c :: cs, [], h => by simp [colsMatch] at h
  | (cn, ty) :: cs, (fn, fv) :: fs, h => by
    simp only [colsMatch, Bool.and_eq_true] at h
    obtain ⟨⟨⟨⟨h1, h2⟩, h3⟩, h4⟩, h5⟩ := h
    have h3' : (cn == "flatter") = false := by
      have hcn : cn = fn := by simpa using h1
      subst hcn; simpa using h3
    simp only [cellsPure, Entries.find, h3', if_false]
    exact cellsPure_find_flatter_none tc cs fs h5

mutual
/-- On plain JSON data `JSON.stringify` performs no `toJSON` conversion:
the stored value is the value itself. -/
theorem pureJson_stringify_id : ∀ v : Val, pureJson v = true → jsonStringifyVal v = v
  | .vnull, _ => rfl
  | .vstr s, _ => rfl
  | .vnum n, _ => rfl
  | .vdate ms, h => by simp [pureJson] at h
  | .viso ms, h => by simp [pureJson] at h
  | .vinvalidDate, h => by simp [pureJson] at h
  | .vinst a, h => by simp [pureJson] at h
  | .vobj kvs, h => by
    rw [pureJson] at h
    rw [jsonStringifyVal, pureJson_stringify_entries kvs h]
  | .varr xs, h => by
    rw [pureJson] at h
    rw [jsonStringifyVal, pureJson_stringify_elems xs h]

theorem pureJson_stringify_entries :
    ∀ es : Entries, pureJsonEntries es = true → jsonStringifyEntries es = es
  | .nil, _ => rfl
  | .cons k v rest, h => by
    rw [pureJsonEntries, Bool.and_eq_true] at h
    rw [jsonStringifyEntries, pureJson_stringify_id v h.1,
      pureJson_stringify_entries rest h.2]

theorem pureJson_stringify_elems :
    ∀ xs : Elems, pureJsonElems xs = true → jsonStringifyElems xs = xs
  | .nil, _ => rfl
  | .cons v rest, h => by
    rw [pureJsonElems, Bool.and_eq_true] at h
    rw [jsonStringifyElems, pureJson_stringify_id v h.1,
      pureJson_stringify_elems rest h.2]
end

theorem serFieldsPure_cleanEntries (tc : TC) (selfU : String) :
    ∀ (cols : List (String × ColT)) (fs : List (String × FVal)),
      colsMatch tc cols fs = true →
      cleanEntries tc selfU (serFieldsPure fs) = true
  | [], [], _ => rfl
  | [], f :: fs, h => by simp [colsMatch] at h
  | c :: cs, [], h => by simp [colsMatch] at h
  | (cn, ty) :: cs, (fn, fv) :: fs, h => by
    simp only [colsMatch, Bool.and_eq_true] at h
    obtain ⟨⟨⟨⟨h1, h2⟩, h3⟩, h4⟩, h5⟩ := h
    have ih := serFieldsPure_cleanEntries tc selfU cs fs h5
    rw [serFieldsPure, cleanEntries, Bool.and_eq_true]
    refine ⟨?_, ih⟩
    cases ty <;> cases fv <;> simp [fvalMatch] at h4 <;>
      first
        | rfl
        | exact strongClean_clean_val tc selfU _ h4
        | (rename_i v
           show cleanVal tc selfU (jsonStringifyVal v) = true
           rw [pureJson_stringify_id v h4.2]
           exact strongClean_clean_val tc selfU v h4.1)

theorem payload_clean (tc : TC) (u : String)
    (cols : List (String × ColT)) (fields : List (String × FVal))
    (hm : colsMatch tc cols fields = true) :
    cleanVal tc u (payloadOf u fields) = true := by
  rw [payloadOf, cleanVal, Bool.and_eq_true]
  constructor
  · rw [cleanEntries, Bool.and_eq_true]
    exact ⟨rfl, serFieldsPure_cleanEntries tc u cols fields hm⟩
  · cases hfc : Entries.find (.cons "uuid" (.vstr u) (serFieldsPure fields)) "class" with
    | none => simp
    | some vc =>
      cases vc <;> simp
      rename_i c
      cases ht : tc.lookup c with
      | none => simp
      | some x => simp [Entries.find]

theorem convertEntries_pure (tc : TC) (schema : List (String × ColT)) :
    ∀ (cols : List (String × ColT)) (fs : List (String × FVal)),
      colsMatch tc cols fs = true →
      (∀ kt ∈ cols, schema.lookup kt.1 = some kt.2) →
      convertEntries schema (serFieldsPure fs) = .ok (loadedEntries fs)
  | [], [], _, _ => rfl
  | [], f :: fs, h, _ => by simp [colsMatch] at h
  | c :: cs, [], h, _ => by simp [colsMatch] at h
  | (cn, ty) :: cs, (fn, fv) :: fs, h, hlk => by
    simp only [colsMatch, Bool.and_eq_true] at h
    obtain ⟨⟨⟨⟨h1, h2⟩, h3⟩, h4⟩, h5⟩ := h
    have hcn : cn = fn := by simpa using h1
    subst hcn
    have hl : schema.lookup cn = some ty := hlk (cn, ty) (List.mem_cons_self _ _)
    have ih := convertEntries_pure tc schema cs fs h5
      (fun kt hkt => hlk kt (List.mem_cons_of_mem _ hkt))
    cases ty <;> cases fv <;> simp [fvalMatch] at h4 <;>
      simp [serFieldsPure, convertEntries, hl, ih, loadedEntries, wireOf, loadedVal, jsNewDate]

/-! ## C2 -/

/--
C2 counterexample: the claim states that for *every* entity none of whose
field values is a persistent entity, save-then-load yields a field-equal
object.  But the aggregate format has no escaping: a plain JSON field value
shaped like a Reference Token (`{class: "B", uuid: "zzz"}` with B a
registered class) is stored verbatim by `save`, and on load the reviver
mistakes it for a token and calls `B.loadWithUUID("zzz")`, which throws
`NotFoundError` because no such row exists — the round trip fails entirely
at this input.
-/
theorem C2_counterexample :
    saveTop env2 tc2 3 "ua" [] =
      .ok (true, { cache := ⟨"ua", [("ua", .ph)]⟩, store := store2 }) ∧
    loadTop 5 store2 tc2 "A" "ua" [] = .error .notFound :=
  ⟨rfl, rfl⟩

/--
C2 (amended): for every entity of a registered type whose columns carry the
built-in declared types (uuid / text / timestamp / aggregate), whose field
names are distinct and distinct from the reserved `uuid`/`flatter` columns,
and whose field values are strings, Dates, or plain JSON data — pure JSON,
with no `Date` nodes inside (a nested `Date` is stored as its ISO string
and would come back as a string), and none of whose object nodes carries a
`class` member naming a registered type — saving and then loading by uuid
succeeds and materializes an object whose own properties are field-by-field
equal to the entity's: the uuid, every string field, and every JSON field
unchanged (`loadedVal` applies the same `Date.toJSON` pass as storage, and
on pure JSON that pass is the identity, `pureJson_stringify_id`), and every
Date field a Date denoting the same instant.  The load reads the snapshot,
so the row's scalar cells (including the Julian-day DATETIME cell) do not
affect the result.
-/
theorem C2_roundtrip (env : SEnv) (tc : TC) (sfuel lfuel : Nat) (cls u : String)
    (cols : List (String × ColT)) (fields : List (String × FVal)) (store : Store)
    (henv : envFind env u = some ⟨cls, u, fields⟩)
    (hschema : tc.lookup cls = some (("uuid", .uuidT) :: cols ++ [("flatter", .objectT)]))
    (hmatch : colsMatch tc cols fields = true)
    (hnodup : (fields.map Prod.fst).Nodup) :
    saveTop env tc sfuel u store =
      .ok (true, { cache := ⟨u, [(u, .ph)]⟩,
                   store := storePut store u cls (rowOf u cols fields) }) ∧
    loadTop (lfuel + 1) (storePut store u cls (rowOf u cols fields)) tc cls u [] =
      .ok (0, ⟨u, [(u, 0)]⟩,
           [⟨cls, .cons "uuid" (.vstr u) (loadedEntries fields)⟩]) := by
  have hlk : ∀ kv ∈ fields, fields.lookup kv.1 = some kv.2 := by
    intro kv hkv
    obtain ⟨k, v⟩ := kv
    exact lookup_of_mem_of_nodup hnodup hkv
  constructor
  · unfold saveTop
    simp only [henv, hschema, List.cons_append]
    unfold saveWrite
    have hser := serFields_pure tc (saveGo env tc sfuel) env u cols fields
      { cache := ⟨u, [(u, .ph)]⟩, store := store } hmatch
    have hdb := dbValues_pure tc (saveGo env tc sfuel) env ⟨cls, u, fields⟩ cols fields
      { cache := ⟨u, [(u, .ph)]⟩, store := store } hmatch hlk hser
    have hdbfull : dbValues (saveGo env tc sfuel) env ⟨cls, u, fields⟩
        (("uuid", ColT.uuidT) :: (cols ++ [("flatter", ColT.objectT)]))
        { cache := ⟨u, [(u, .ph)]⟩, store := store } =
        .ok (rowOf u cols fields, { cache := ⟨u, [(u, .ph)]⟩, store := store }) := by
      rw [dbValues]
      have hcell : dbCell (saveGo env tc sfuel) env ⟨cls, u, fields⟩ "uuid" .uuidT
          { cache := ⟨u, [(u, .ph)]⟩, store := store } =
          .ok (.vstr u, { cache := ⟨u, [(u, .ph)]⟩, store := store }) := rfl
      simp only [hcell, hdb, rowOf, payloadOf]
    simp only [transact, List.cons_append, hdbfull, cacheSet, setA, beq_self_eq_true,
      if_true]
  · show loadBody (storePut store u cls (rowOf u cols fields)) tc
      (loadFuel (storePut store u cls (rowOf u cols fields)) tc lfuel) cls u ⟨u, []⟩ [] = _
    have hff : Entries.find (rowOf u cols fields) "flatter" = some (payloadOf u fields) := by
      rw [rowOf, Entries.find]
      simp only [show (("uuid" : String) == "flatter") = false from rfl, if_false]
      rw [find_append, cellsPure_find_flatter_none tc cols fields hmatch]
      simp [Entries.find]
    have hid := resolve_clean_val
      (loadFuel (storePut store u cls (rowOf u cols fields)) tc lfuel) tc u
      (payloadOf u fields) ⟨u, []⟩ [] (payload_clean tc u cols fields hmatch)
    have hndcols : (cols.map Prod.fst).Nodup := by
      rw [colsMatch_keys_eq tc cols fields hmatch]; exact hnodup
    have hlkschema : ∀ kt ∈ cols,
        ((("uuid", ColT.uuidT) :: (cols ++ [("flatter", ColT.objectT)])) :
          List (String × ColT)).lookup kt.1 = some kt.2 := by
      intro kt hkt
      obtain ⟨hk1, hk2⟩ := colsMatch_not_reserved tc cols fields hmatch kt hkt
      rw [List.lookup, hk1]
      exact lookup_append_left (lookup_of_mem_of_nodup hndcols
        (by obtain ⟨a, b⟩ := kt; exact hkt)) _
    have hconv : convertEntries (("uuid", ColT.uuidT) :: (cols ++ [("flatter", ColT.objectT)]))
        (.cons "uuid" (.vstr u) (serFieldsPure fields)) =
        .ok (.cons "uuid" (.vstr u) (loadedEntries fields)) := by
      rw [convertEntries]
      have : ((("uuid", ColT.uuidT) :: (cols ++ [("flatter", ColT.objectT)])) :
          List (String × ColT)).lookup "uuid" = some ColT.uuidT := by
        simp [List.lookup]
      rw [this, convertEntries_pure tc _ cols fields hmatch hlkschema]
    unfold loadBody
    rw [payloadOf] at hid
    simp only [List.lookup, storeFind_put_self, beq_self_eq_true, if_true, hff,
      payloadOf, hid, loadFinish, hschema, List.cons_append, List.nil_append,
      List.length_nil, setA, hconv]

/-- C2 witness: the concrete entity with a text, a timestamp, and a plain
JSON field round-trips; all hypotheses discharged by evaluation. -/
theorem C2_roundtrip_witness :
    envFind envW "uw" = some ⟨"W", "uw", fieldsW⟩ ∧
    tcW.lookup "W" = some (("uuid", .uuidT) :: colsW ++ [("flatter", .objectT)]) ∧
    colsMatch tcW colsW fieldsW = true ∧
    (fieldsW.map Prod.fst).Nodup ∧
    (saveTop envW tcW 1 "uw" [] =
      .ok (true, { cache := ⟨"uw", [("uw", .ph)]⟩,
                   store := storePut [] "uw" "W" (rowOf "uw" colsW fieldsW) }) ∧
     loadTop 1 (storePut [] "uw" "W" (rowOf "uw" colsW fieldsW)) tcW "W" "uw" [] =
      .ok (0, ⟨"uw", [("uw", 0)]⟩,
           [⟨"W", .cons "uuid" (.vstr "uw") (loadedEntries fieldsW)⟩])) :=
  ⟨rfl, rfl, rfl, by decide,
   C2_roundtrip envW tcW 1 0 "W" "uw" colsW fieldsW [] rfl rfl rfl (by decide)⟩

/-! ## C1 -/

/-- One unfolding step of loading `a` in the cyclic store: if the nested
load of `b` blows the stack, so does the load of `a` (the cache is still
empty at the recursive call — registration only happens after parsing). -/
theorem C1_body_a (lr : String → String → LCache → Heap → Except LErr (Nat × LCache × Heap))
    (h : lr "B" "b" ⟨"a", []⟩ [] = .error .stackOverflow) :
    loadBody storeAB tcAB lr "A" "a" ⟨"a", []⟩ [] = .error .stackOverflow := by
  simp [loadBody, storeAB, tcAB, rowA, rowB, token,
    resolveVal, resolveEntries, resolveElems, Entries.find, storeFind,
    List.find?, List.lookup, setA, h]

/-- The symmetric step: loading `b` recurses into loading `a`. -/
theorem C1_body_b (lr : String → String → LCache → Heap → Except LErr (Nat × LCache × Heap))
    (h : lr "A" "a" ⟨"a", []⟩ [] = .error .stackOverflow) :
    loadBody storeAB tcAB lr "B" "b" ⟨"a", []⟩ [] = .error .stackOverflow := by
  simp [loadBody, storeAB, tcAB, rowA, rowB, token,
    resolveVal, resolveEntries, resolveElems, Entries.find, storeFind,
    List.find?, List.lookup, setA, h]

/-- In the cyclic store the mutual recursion `load a → load b → load a → …`
never bottoms out: at every call-stack depth the result is the stack
overflow, because neither uuid is registered in the shared cache before the
recursive call is made. -/
theorem C1_load_diverges_aux : ∀ n,
    loadFuel storeAB tcAB n "A" "a" ⟨"a", []⟩ [] = .error .stackOverflow ∧
    loadFuel storeAB tcAB n "B" "b" ⟨"a", []⟩ [] = .error .stackOverflow := by
  intro n
  induction n with
  | zero => exact ⟨rfl, rfl⟩
  | succ n ih => exact ⟨C1_body_a _ ih.2, C1_body_b _ ih.1⟩

/--
C1: the claim states that for mutually-embedding entities `a` and `b`,
`save(a)` terminates with rows for both (true: the toplevel short-circuit
breaks the cascade cycle), and that `loadWithUUID(a.uuid)` terminates with
the embedded references aliased.  The load part is false on the code:
`loadWithUUID` registers an object in the cache only *after* `JSON.parse`
of its aggregate finishes, and the reviver writes the cache only *after*
the recursive load returns, so `load a → load b → load a → …` recurses
without bound (a stack overflow in JS) — for every call-stack budget the
load fails.  The code contradicts its own documentation ("Caches the
loaded object … to handle circular references", lines 869-870): the claim
is right and the code is wrong (code bug).
-/
theorem C1_cycle_save_ok_but_load_diverges :
    saveTop envAB tcAB 5 "a" [] =
      .ok (true, { cache := ⟨"a", [("a", .ph), ("b", .ph)]⟩, store := storeAB }) ∧
    storeFind storeAB "a" = some ("A", rowA) ∧
    storeFind storeAB "b" = some ("B", rowB) ∧
    ∀ fuel, loadTop fuel storeAB tcAB "A" "a" [] = .error .stackOverflow :=
  ⟨rfl, rfl, rfl, fun fuel => (C1_load_diverges_aux fuel).1⟩

/-! ## C3 -/

/-- One cascade step in the `a → b → c → b` world: if saving `c` from the
state reached by the cascade blows the stack, so does the write phase of
`b` (which cascades into `c` while `b` itself is still absent from the
cache). -/
theorem C3_body_b (sr : String → St → Except (SErr × St) (Bool × St))
    (h : sr "c" st3 = .error (.stackOverflow, st3)) :
    saveWrite sr env3 entB3 [("uuid", .uuidT), ("emb", .fkref "C"), ("flatter", .objectT)] st3 =
      .error (.stackOverflow, st3) := by
  simp [saveWrite, transact, dbValues, dbCell, serializeEntity, serFields,
    serializeFVal, propOf, envFind, List.find?, List.lookup, token,
    env3, entA3, entB3, entC3, h]

/-- The symmetric step: the write phase of `c` cascades back into `b`. -/
theorem C3_body_c (sr : String → St → Except (SErr × St) (Bool × St))
    (h : sr "b" st3 = .error (.stackOverflow, st3)) :
    saveWrite sr env3 entC3 [("uuid", .uuidT), ("emb", .fkref "B"), ("flatter", .objectT)] st3 =
      .error (.stackOverflow, st3) := by
  simp [saveWrite, transact, dbValues, dbCell, serializeEntity, serFields,
    serializeFVal, propOf, envFind, List.find?, List.lookup, token,
    env3, entA3, entB3, entC3, h]

/-- The cascade `save b → save c → save b → …` never bottoms out: `b` is
reached from the toplevel `a`, so it is not pre-marked, and an in-progress
save is not in the cache until its row write completes — at every
call-stack depth the result is the stack overflow, with the rolled-back
state unchanged. -/
theorem C3_save_diverges_aux : ∀ n,
    saveGo env3 tc3 n "b" st3 = .error (.stackOverflow, st3) ∧
    saveGo env3 tc3 n "c" st3 = .error (.stackOverflow, st3) := by
  intro n
  induction n with
  | zero => exact ⟨rfl, rfl⟩
  | succ n ih => exact ⟨C3_body_b _ ih.2, C3_body_c _ ih.1⟩

/-- The top-level step: `save(a)`'s write phase cascades into `b`. -/
theorem C3_body_a (sr : String → St → Except (SErr × St) (Bool × St))
    (h : sr "b" st3 = .error (.stackOverflow, st3)) :
    saveWrite sr env3 entA3 [("uuid", .uuidT), ("emb", .fkref "B"), ("flatter", .objectT)] st3 =
      .error (.stackOverflow, st3) := by
  simp [saveWrite, transact, dbValues, dbCell, serializeEntity, serFields,
    serializeFVal, propOf, envFind, List.find?, List.lookup, token,
    env3, entA3, entB3, entC3, h]

/--
C3: the claim states that every entity reachable from a top-level save —
including entities reachable through a cycle — is written exactly once, a
second encounter being a no-op.  This fails on the code whenever the cycle
does not pass through the top-level entity: `save` pre-marks only the
toplevel in the cache (source lines 787-789), and a nested entity enters
the cache only *after* its row write (lines 803/806), so during its own
`dbValues` it is invisible to re-encounters.  For `a → b → c → b`, the
cascade `save b → save c → save b → …` recurses without bound: for every
call-stack budget the whole `save(a)` raises a stack overflow, everything
is rolled back, and no row at all is written — contradicting the claim and
the code's own documentation ("Ensures that objects are not saved multiple
times … resolves circular references", lines 748-753): the claim is right
and the code is wrong (code bug).
-/
theorem C3_nontoplevel_cycle_save_diverges :
    ∀ fuel, saveTop env3 tc3 fuel "a" [] = .error (.stackOverflow, st3) :=
  fun fuel => C3_body_a _ (C3_save_diverges_aux fuel).1

/-! ## C5 -/

/--
C5 counterexample: the claim states that a criteria-based `load` shares one
cache across the whole batch, so that two returned entities referencing a
common entity resolve it to one aliased instance.  But `load` (source lines
982-989) ignores its `_cache` parameter and calls `this.loadWithUUID(uuid)`
with *no* cache argument, so each batch element builds a fresh cache: in
the concrete store where both `u1` and `u2` reference the shared `w`, the
first result's references resolve to heap address 0 and the second's to
heap address 2 — two distinct instances, not one.
-/
theorem C5_counterexample :
    load 5 store5 tc5 "A" ["u1", "u2"] [] = .ok ([1, 3], heap5) ∧
    Entries.find u1Obj5.props "emb" = some (.vinst 0) ∧
    Entries.find u2Obj5.props "emb" = some (.vinst 2) ∧
    (0 : Nat) ≠ 2 :=
  ⟨rfl, rfl, rfl, by decide⟩

/--
C5 (amended): `load` delegates to `loadWithUUID` once per matching
identifier, but passes no cache: each element of the batch is loaded with a
fresh cache `{ toplevel: uuid }` (only the process heap is shared).
Consequently references are aliased only *within* one returned entity's
tree (both of `u1`'s fields resolve to the same instance), while a common
entity referenced from two different returned entities is materialized once
per element — structurally equal duplicates at distinct addresses, not one
shared instance.
-/
theorem C5_fresh_cache_per_batch_element :
    (∀ (fuel : Nat) (store : Store) (tc : TC) (cls u : String) (us : List String) (heap : Heap),
       load fuel store tc cls (u :: us) heap =
         match loadFuel store tc fuel cls u ⟨u, []⟩ heap with
         | .error e => .error e
         | .ok (addr, _, heap') =>
           match load fuel store tc cls us heap' with
           | .error e => .error e
           | .ok (addrs, heap'') => .ok (addr :: addrs, heap'')) ∧
    load 5 store5 tc5 "A" ["u1", "u2"] [] = .ok ([1, 3], heap5) ∧
    Entries.find u1Obj5.props "emb" = some (.vinst 0) ∧
    Entries.find u1Obj5.props "emb2" = some (.vinst 0) ∧
    Entries.find u2Obj5.props "emb" = some (.vinst 2) ∧
    Entries.find u2Obj5.props "emb2" = some (.vinst 2) ∧
    heap5.get? 0 = some wObj5 ∧
    heap5.get? 2 = some wObj5 ∧
    (0 : Nat) ≠ 2 :=
  ⟨fun _ _ _ _ _ _ _ => rfl, rfl, rfl, rfl, rfl, rfl, rfl, rfl, by decide⟩

/-! ## C7 -/

/--
C7: the claim states that the DATETIME conversion pair uses one canonical
wire form consistently in both directions, so that
`toJSValue(toDBValue(d))` equals `d` for every Date `d`.  The code writes
`julian(e)` (an astronomical Julian-day string) but reads with
`new Date(e)`, which only understands ISO-8601 strings or epoch
milliseconds; the module's own documentation (source lines 1045-1050) says
both directions use ISO-8601.  At the Unix epoch the composition yields an
Invalid Date, not the original instant: the claim is right and the code is
wrong (code bug).
-/
theorem C7_datetime_conversion_not_inverse :
    DATETIME_toJSValue (DATETIME_toDBValue (.fdate 0)) = .vinvalidDate ∧
    DATETIME_toJSValue (DATETIME_toDBValue (.fdate 0)) ≠ .vdate 0 :=
  ⟨rfl, fun h => nomatch h⟩

/-! ## C9 -/

/--
C9 counterexample: the claim states that for every template object passed
to the constructor, the constructed entity's uuid is the freshly generated
one.  But the constructor runs `Object.assign(this, template)` *after*
`this.uuid = crypto.randomUUID()`, so a template carrying a `uuid` key
overwrites the fresh identifier — the uuid is assigned twice and the final
value is the template's, not the generated one.
-/
theorem C9_counterexample :
    (flatterNew "User" "fresh-uuid-1" [("uuid", .fstr "stale-uuid")]).uuid = "stale-uuid" ∧
    (flatterNew "User" "fresh-uuid-1" [("uuid", .fstr "stale-uuid")]).uuid ≠ "fresh-uuid-1" :=
  ⟨rfl, by decide⟩

/--
C9 (amended): the constructor assigns the freshly generated uuid, and the
constructed entity keeps it whenever the template object does not itself
carry a `uuid` key (a template `uuid` key overwrites it via
`Object.assign`); no engine operation reassigns it afterwards (in the
model, entities are immutable values — `save`/`load` never produce a
modified entity).
-/
theorem C9_uuid_fresh_unless_template_overrides
    (cls fresh : String) (template : List (String × FVal))
    (h : template.lookup "uuid" = none) :
    (flatterNew cls fresh template).uuid = fresh := by
  simp [flatterNew, h]

/-- C9 witness: a template without a `uuid` key yields the fresh uuid. -/
theorem C9_uuid_fresh_unless_template_overrides_witness :
    ([("name", FVal.fstr "x")] : List (String × FVal)).lookup "uuid" = none ∧
    (flatterNew "User" "fresh-uuid-1" [("name", .fstr "x")]).uuid = "fresh-uuid-1" :=
  ⟨rfl, C9_uuid_fresh_unless_template_overrides "User" "fresh-uuid-1" _ rfl⟩

/-! ## C6 -/

/--
C6 counterexample: the claim states that once the row write succeeds the
operation cache maps the entity's identifier to the materialized entity
itself, not to a placeholder, at the point where `save` returns.  The code
does set `cache[theUUID] = this` inside the transaction (source line 803),
but immediately after the transaction it unconditionally overwrites the
entry with the placeholder `{ uuid: this.uuid }` (source line 806), so at
the point `save` returns the cache holds a placeholder, not the entity.
-/
theorem C6_counterexample :
    saveTop env6 tc6 3 "u6" [] =
      .ok (true, { cache := ⟨"u6", [("u6", .ph)]⟩, store := store6 }) ∧
    CEnt.ph ≠ CEnt.mat :=
  ⟨rfl, by decide⟩

/--
C6 (amended): for every successful top-level `save`, the cache entry for
the entity's identifier at the point where `save` returns is the
placeholder record `{ uuid }` — written by the post-transaction overwrite —
which is still sufficient to make any later re-save of the same identifier
a no-op; the materialized entity is stored only transiently inside the
transaction.
-/
theorem C6_cache_holds_placeholder_after_save
    (env : SEnv) (tc : TC) (fuel : Nat) (u : String) (store : Store)
    (b : Bool) (st' : St)
    (h : saveTop env tc fuel u store = .ok (b, st')) :
    st'.cache.m.lookup u = some .ph := by
  unfold saveTop at h
  split at h
  · cases h
  · rename_i ent he
    split at h
    · cases h
    · rename_i schema hs
      unfold saveWrite at h
      split at h
      · cases h
      · rename_i stW ht
        injection h with h1
        injection h1 with hb hst
        subst hst
        have hu : ent.uuid = u := envFind_uuid he
        simp [cacheSet, hu, lookup_setA_self]

/-- C6 witness: the concrete single-entity world, with the amended theorem
applied to its successful save. -/
theorem C6_cache_holds_placeholder_after_save_witness :
    saveTop env6 tc6 3 "u6" [] =
      .ok (true, { cache := ⟨"u6", [("u6", .ph)]⟩, store := store6 }) ∧
    ({ cache := (⟨"u6", [("u6", .ph)]⟩ : SCache), store := store6 } : St).cache.m.lookup "u6" =
      some .ph :=
  ⟨rfl, C6_cache_holds_placeholder_after_save env6 tc6 3 "u6" [] true _ rfl⟩

/-! ## C10 -/

/--
C10: whenever `save` returns rather than raising, it returns `true`: every
non-throwing path — the cycle/already-saved short-circuits and the write
path — ends in `return true`, so failure is signalled only by a raised
error, never by a `false` return value.
-/
theorem C10_save_ok_always_true
    (env : SEnv) (tc : TC) (fuel : Nat) (u : String) (st : St) (store : Store)
    (r r' : Bool × St)
    (h : saveGo env tc fuel u st = .ok r)
    (h' : saveTop env tc fuel u store = .ok r') :
    r.1 = true ∧ r'.1 = true := by
  have hw : ∀ (sr : String → St → Except (SErr × St) (Bool × St)) (ent : Ent)
      (schema : List (String × ColT)) (st0 : St) (rr : Bool × St),
      saveWrite sr env ent schema st0 = .ok rr → rr.1 = true := by
    intro sr ent schema st0 rr hww
    unfold saveWrite at hww
    split at hww
    · cases hww
    · injection hww with h1; rw [← h1]
  constructor
  · cases fuel with
    | zero => cases h
    | succ n =>
      unfold saveGo at h
      split at h
      · cases h
      · split at h
        · cases h
        · split at h
          · injection h with h1; rw [← h1]
          · split at h
            · injection h with h1; rw [← h1]
            · exact hw _ _ _ _ _ h
  · unfold saveTop at h'
    split at h'
    · cases h'
    · split at h'
      · cases h'
      · exact hw _ _ _ _ _ h'

/-- C10 witness: in the single-entity world, both the cascade-path save
(with a cache whose toplevel differs) and the top-level save succeed, and
both returned Booleans are true. -/
theorem C10_save_ok_always_true_witness :
    saveGo env6 tc6 3 "u6" { cache := ⟨"zz", []⟩, store := [] } =
      .ok (true, { cache := ⟨"zz", [("u6", .ph)]⟩, store := store6 }) ∧
    saveTop env6 tc6 3 "u6" [] =
      .ok (true, { cache := ⟨"u6", [("u6", .ph)]⟩, store := store6 }) ∧
    ((true, ({ cache := ⟨"zz", [("u6", .ph)]⟩, store := store6 } : St)) : Bool × St).1 = true ∧
    ((true, ({ cache := ⟨"u6", [("u6", .ph)]⟩, store := store6 } : St)) : Bool × St).1 = true := by
  refine ⟨rfl, rfl, ?_, ?_⟩
  · exact (C10_save_ok_always_true env6 tc6 3 "u6" { cache := ⟨"zz", []⟩, store := [] } []
      (true, { cache := ⟨"zz", [("u6", .ph)]⟩, store := store6 })
      (true, { cache := ⟨"u6", [("u6", .ph)]⟩, store := store6 }) rfl rfl).1
  · exact (C10_save_ok_always_true env6 tc6 3 "u6" { cache := ⟨"zz", []⟩, store := [] } []
      (true, { cache := ⟨"zz", [("u6", .ph)]⟩, store := store6 })
      (true, { cache := ⟨"u6", [("u6", .ph)]⟩, store := store6 }) rfl rfl).2

/-! ## C4 -/

/--
C4: every unit of work run under `transact` either completes and is
committed (the checkpoint is released and the unit's resulting state
stands), or raises: then the database is rolled back to the checkpoint and
the same error is re-raised — never swallowed.  In particular any error
inside `save`'s transaction (such as a converter failure while computing a
multi-column row) leaves the store exactly as it was before the top-level
`save`: no partial row is visible.
-/
theorem C4_transact_commits_or_rolls_back_and_rethrows :
    (∀ (f : St → Except (SErr × St) St) (st st' : St),
       f st = .ok st' → transact f st = .ok st') ∧
    (∀ (f : St → Except (SErr × St) St) (st stE : St) (e : SErr),
       f st = .error (e, stE) →
       transact f st = .error (e, { stE with store := st.store })) ∧
    (∀ (env : SEnv) (tc : TC) (fuel : Nat) (u : String) (store : Store)
       (e : SErr) (stE : St),
       saveTop env tc fuel u store = .error (e, stE) → stE.store = store) := by
  refine ⟨?_, ?_, ?_⟩
  · intro f st st' hf; unfold transact; rw [hf]
  · intro f st stE e hf; unfold transact; rw [hf]
  · intro env tc fuel u store e stE h
    unfold saveTop at h
    split at h
    · injection h with h1; cases h1; rfl
    · split at h
      · injection h with h1; cases h1; rfl
      · unfold saveWrite at h
        split at h
        · rename_i heq
          unfold transact at heq
          split at heq
          · cases heq
          · rename_i e' hbody
            injection heq with he1
            cases he1
            injection h with h2
            cases h2
            rfl
        · cases h

/-- C4 witness: a forced converter failure (an FK column holding a plain
string, whose declared type has no conversions entry) makes the save raise
`typeErr`, and the store visible in the error state equals the store before
the call — the row count is unchanged; additionally, the success and error
clauses of `transact` are exercised on explicit units of work. -/
theorem C4_transact_commits_or_rolls_back_and_rethrows_witness :
    (fun (st : St) => (Except.ok { st with store := store6 } : Except (SErr × St) St))
        { cache := ⟨"z", []⟩, store := [] } =
      .ok { cache := ⟨"z", []⟩, store := store6 } ∧
    transact (fun st => .ok { st with store := store6 }) { cache := ⟨"z", []⟩, store := [] } =
      .ok { cache := ⟨"z", []⟩, store := store6 } ∧
    transact (fun st => .error (.typeErr, { st with store := store6 }))
        { cache := ⟨"z", []⟩, store := [] } =
      .error (.typeErr, { cache := ⟨"z", []⟩, store := [] }) ∧
    saveTop env4 tc4 3 "u4" store4 =
      .error (.typeErr, { cache := ⟨"u4", [("u4", .ph)]⟩, store := store4 }) ∧
    ({ cache := (⟨"u4", [("u4", .ph)]⟩ : SCache), store := store4 } : St).store = store4 :=
  ⟨rfl,
   C4_transact_commits_or_rolls_back_and_rethrows.1 _ _ _ rfl,
   C4_transact_commits_or_rolls_back_and_rethrows.2.1 _ _ _ _ rfl,
   rfl,
   C4_transact_commits_or_rolls_back_and_rethrows.2.2 env4 tc4 3 "u4" store4 .typeErr _ rfl⟩

end Flatter
